import Mathlib

/-!
# Verification of the mgit identity-bound hash chain

A shallow embedding, in Lean 4, of the core of the `mgit` repository: the
identity-bound hash function (`mcommit.go`), the graph reconstructor and the
revision resolver (the show/clone command files), and the verify operation
(`HandleMGitVerify`).  Bytes and 32-bit machine words are modelled as `Nat`
with explicit reduction `% 2^32` where Go overflows; Go strings become Lean
`String`s and `[]byte(s)` becomes the UTF-8 byte list; fallible operations
return `Option`/`Except`; the filesystem-backed stores become explicit record
values threaded through the functions that, in Go, mutate them through the
filesystem.
-/

/-! ## SHA-1 (crypto/sha1), over byte lists

`computeMGitHash` feeds its input through Go's `crypto/sha1`.  We implement
SHA-1 (FIPS 180-4) executably over `List Nat` (each element one byte). -/

/-- Reduce to a 32-bit word, as Go's `uint32` arithmetic does implicitly. -/
def w32 (n : Nat) : Nat := n % 4294967296

/-- Left-rotation of a 32-bit word. -/
def rotl (n s : Nat) : Nat := w32 ((n <<< s) ||| (n >>> (32 - s)))

/-- Big-endian bytes of `n`, `k` bytes wide. -/
def beBytes (k n : Nat) : List Nat :=
  match k with
  | 0 => []
  | j + 1 => beBytes j (n / 256) ++ [n % 256]

/-- SHA-1 padding: append `0x80`, zeros to 56 mod 64, then the 64-bit
big-endian bit length. -/
def sha1Pad (m : List Nat) : List Nat :=
  let L := m.length
  let z := (119 - (L % 64)) % 64
  m ++ [128] ++ List.replicate z 0 ++ beBytes 8 (L * 8)

/-- Group bytes into big-endian 32-bit words. -/
def bytesToWords : List Nat → List Nat
  | b0 :: b1 :: b2 :: b3 :: rest =>
      (((b0 * 256 + b1) * 256 + b2) * 256 + b3) :: bytesToWords rest
  | _ => []

/-- Group a word list into 16-word blocks. -/
def wordsToBlocks : List Nat → List (List Nat)
  | w0 :: w1 :: w2 :: w3 :: w4 :: w5 :: w6 :: w7 ::
    w8 :: w9 :: w10 :: w11 :: w12 :: w13 :: w14 :: w15 :: rest =>
      [w0, w1, w2, w3, w4, w5, w6, w7, w8, w9, w10, w11, w12, w13, w14, w15]
        :: wordsToBlocks rest
  | _ => []

/-- `l.getD i 0`, the `i`-th scheduled word. -/
def nthw (l : List Nat) (i : Nat) : Nat := l.getD i 0

/-- Expand the 16-word block to the 80-word message schedule
(`fuel` more words to append). -/
def sha1Expand (l : List Nat) : Nat → List Nat
  | 0 => l
  | f + 1 =>
      let n := l.length
      sha1Expand
        (l ++ [rotl (nthw l (n - 3) ^^^ nthw l (n - 8) ^^^
                     nthw l (n - 14) ^^^ nthw l (n - 16)) 1]) f

/-- The SHA-1 round function `f_t`. -/
def sha1F (t b c d : Nat) : Nat :=
  if t < 20 then (b &&& c) ||| ((b ^^^ 4294967295) &&& d)
  else if t < 40 then b ^^^ c ^^^ d
  else if t < 60 then (b &&& c) ||| (b &&& d) ||| (c &&& d)
  else b ^^^ c ^^^ d

/-- The SHA-1 round constant `K_t`. -/
def sha1K (t : Nat) : Nat :=
  if t < 20 then 1518500249
  else if t < 40 then 1859775393
  else if t < 60 then 2400959708
  else 3395469782

/-- The five-word SHA-1 state. -/
structure Sha1State where
  a : Nat
  b : Nat
  c : Nat
  d : Nat
  e : Nat
deriving Repr, DecidableEq

/-- One SHA-1 round. -/
def sha1Round (ws : List Nat) (st : Sha1State) (t : Nat) : Sha1State :=
  let temp := w32 (rotl st.a 5 + sha1F t st.b st.c st.d + st.e + sha1K t + nthw ws t)
  ⟨temp, st.a, rotl st.b 30, st.c, st.d⟩

/-- Compress one 16-word block into the running state. -/
def sha1Compress (h : Sha1State) (block : List Nat) : Sha1State :=
  let ws := sha1Expand block 64
  let st := (List.range 80).foldl (sha1Round ws) h
  ⟨w32 (h.a + st.a), w32 (h.b + st.b), w32 (h.c + st.c),
   w32 (h.d + st.d), w32 (h.e + st.e)⟩

/-- The SHA-1 initial state. -/
def sha1Init : Sha1State :=
  ⟨1732584193, 4023233417, 2562383102, 271733878, 3285377520⟩

/-- SHA-1 of a byte list: a 20-byte digest. -/
def sha1 (m : List Nat) : List Nat :=
  let st := (wordsToBlocks (bytesToWords (sha1Pad m))).foldl sha1Compress sha1Init
  beBytes 4 st.a ++ beBytes 4 st.b ++ beBytes 4 st.c ++ beBytes 4 st.d ++ beBytes 4 st.e

/-! UTF-8 encoding of strings, modelling Go's `[]byte(s)` conversion. -/

/-- UTF-8 encoding of one code point. -/
def utf8Bytes (c : Nat) : List Nat :=
  if c < 128 then [c]
  else if c < 2048 then [192 + c / 64, 128 + c % 64]
  else if c < 65536 then [224 + c / 4096, 128 + c / 64 % 64, 128 + c % 64]
  else [240 + c / 262144, 128 + c / 4096 % 64, 128 + c / 64 % 64, 128 + c % 64]

/-- Go's `[]byte(s)`: the UTF-8 bytes of a string. -/
def strBytes (s : String) : List Nat :=
  s.data.flatMap (fun ch => utf8Bytes ch.toNat)

/-- Go's `strings.HasPrefix(s, pre)`.  (A character-level prefix coincides
with a byte-level prefix for valid UTF-8.) -/
def strStartsWith (s pre : String) : Bool :=
  pre.data.isPrefixOf s.data

/-- Go's `s[n:]` on an ASCII string: drop the first `n` characters. -/
def strDrop (s : String) (n : Nat) : String :=
  ⟨s.data.drop n⟩

/-! ## Hex encoding (plumbing.Hash.String / plumbing.NewHash)

go-git's `plumbing.Hash` is 20 raw bytes; `Hash.String()` renders lowercase
hex and `NewHash` parses hex (ignoring errors: it copies whatever decoded
into a zero hash).  Hashes are modelled as `List Nat` of bytes; hex strings
appear wherever the source compares `.String()` forms. -/

/-- Lowercase hex digit of a nibble. -/
def hexDigitChar (n : Nat) : Char :=
  if n < 10 then Char.ofNat (48 + n) else Char.ofNat (87 + n)

/-- `plumbing.Hash.String()`: lowercase hex of the bytes. -/
def hashToHex (h : List Nat) : String :=
  ⟨h.flatMap (fun b => [hexDigitChar (b / 16), hexDigitChar (b % 16)])⟩

/-- Value of one hex digit (0 for non-digits, as an unchecked decode). -/
def hexVal (c : Char) : Nat :=
  if 48 ≤ c.toNat ∧ c.toNat ≤ 57 then c.toNat - 48
  else if 97 ≤ c.toNat ∧ c.toNat ≤ 102 then c.toNat - 87
  else if 65 ≤ c.toNat ∧ c.toNat ≤ 70 then c.toNat - 55
  else 0

/-- Whether a character is a hex digit. -/
def isHexDigit (c : Char) : Bool :=
  decide ((48 ≤ c.toNat ∧ c.toNat ≤ 57) ∨ (97 ≤ c.toNat ∧ c.toNat ≤ 102) ∨
          (65 ≤ c.toNat ∧ c.toNat ≤ 70))

/-- Decode hex character pairs into bytes (dropping a trailing odd character,
as `hex.DecodeString` decodes only full pairs). -/
def hexPairs : List Char → List Nat
  | c1 :: c2 :: rest => (hexVal c1 * 16 + hexVal c2) :: hexPairs rest
  | _ => []

/-- `plumbing.NewHash`: decode the hex string and copy into a 20-byte hash,
zero-filled (decode errors are ignored by the source). -/
def newHashBytes (s : String) : List Nat :=
  (hexPairs s.data ++ List.replicate 20 0).take 20

/-- `plumbing.IsHash`: 40 characters, all hex. -/
def isHash (s : String) : Bool :=
  s.length == 40 && s.data.all isHexDigit

/-! ## Data model (mcommit.go and go-git types)

`object.Signature` and `object.Commit` from go-git, restricted to the fields
the program reads; timestamps are kept as their Unix seconds, the only form
the hash construction consumes. -/

/-- go-git's `object.Signature` (name, email, timestamp). -/
structure GitSignature where
  name : String
  email : String
  whenUnix : Int
deriving Repr, DecidableEq

/-- go-git's `object.Commit`, the fields the program reads. -/
structure GitCommit where
  hash : List Nat
  treeHash : List Nat
  parentHashes : List (List Nat)
  author : GitSignature
  committer : GitSignature
  message : String
deriving Repr, DecidableEq

/-- mcommit.go's `Signature`: author or committer plus the nostr pubkey. -/
structure Signature where
  name : String
  email : String
  pubkey : String
  whenUnix : Int
deriving Repr, DecidableEq

/-- mcommit.go's `MCommitOptions`. -/
structure MCommitOptions where
  author : Signature
  committer : Option Signature
deriving Repr, DecidableEq

/-- `computeMGitHash` (mcommit.go): a SHA-1 hasher is fed, in order, the tree
hash bytes, each parent hash's bytes, the author line
`"<name> <<email>> <unix> <pubkey>"`, the committer line
`"<name> <<email>> <unix>"`, and the message; the digest's first 20 bytes are
copied into the result. -/
def computeMGitHash (commit : GitCommit) (pubkey : String) : List Nat :=
  let h0 : List Nat := []
  let h1 := h0 ++ commit.treeHash
  let h2 := commit.parentHashes.foldl (fun acc p => acc ++ p) h1
  let authorStr := commit.author.name ++ " <" ++ commit.author.email ++ "> " ++
    toString commit.author.whenUnix ++ " " ++ pubkey
  let h3 := h2 ++ strBytes authorStr
  let committerStr := commit.committer.name ++ " <" ++ commit.committer.email ++ "> " ++
    toString commit.committer.whenUnix
  let h4 := h3 ++ strBytes committerStr
  let h5 := h4 ++ strBytes commit.message
  (sha1 h5).take 20

/-- The Hash Function as the spec words it (§4.1): the SHA-1 digest of the
concatenation, in fixed order, of the raw bytes of the tree hash, the raw
bytes of each parent hash in list order, the textual encoding of
`"<authorName> <<authorEmail>> <unixTimestamp> <identityKey>"`, the textual
encoding of `"<committerName> <<committerEmail>> <unixTimestamp>"`, and the
raw message bytes. -/
def computeIdentityHashSpec (treeHash : List Nat) (parentHashes : List (List Nat))
    (author committer : Signature) (message : String) : List Nat :=
  sha1 (treeHash ++ parentHashes.flatten ++
    strBytes (author.name ++ " <" ++ author.email ++ "> " ++
      toString author.whenUnix ++ " " ++ author.pubkey) ++
    strBytes (committer.name ++ " <" ++ committer.email ++ "> " ++
      toString committer.whenUnix) ++
    strBytes message)

/-- `MGitCommit` (mcommit.go) after the underlying engine's `Worktree.Commit`
has produced the native `hash` and, when needed, the commit object has been
retrieved: with an empty author pubkey the native hash is returned on an
explicit early branch; otherwise the identity hash is computed. -/
def MGitCommitResult (opts : MCommitOptions) (nativeHash : List Nat)
    (commit : GitCommit) : List Nat :=
  if opts.author.pubkey = "" then nativeHash
  else computeMGitHash commit opts.author.pubkey

/-- A commit fixture used by witnesses. -/
def wCommit0 : GitCommit :=
  { hash := List.replicate 20 170
    treeHash := List.replicate 20 17
    parentHashes := []
    author := ⟨"Alice", "alice@example.com", 1700000000⟩
    committer := ⟨"Alice", "alice@example.com", 1700000000⟩
    message := "m0" }

/-! ## Repository model and the revision resolver

The underlying engine (go-git) is modelled as the finite data the resolver
and reconstructor read from it: the commit objects, the references (by full
name, already resolved to their target hash, as `repo.Reference(name, true)`
returns them), and `HEAD` (`none` when `repo.Head()` errors). -/

/-- One entry of `.mgit/mappings/hash_mappings.json`
(`NostrCommitMapping`: gitHash, mgitHash, pubkey). -/
structure NostrCommitMapping where
  gitHash : String
  mgitHash : String
  pubkey : String
deriving Repr, DecidableEq

/-- The resolved native `HEAD`: on a branch, or detached at a hash. -/
inductive HeadRef
  | branch (name : String) (target : List Nat)
  | detached (target : List Nat)
deriving Repr, DecidableEq

/-- `Head().Hash()`: the target hash in either case. -/
def HeadRef.hash : HeadRef → List Nat
  | .branch _ t => t
  | .detached t => t

/-- The native repository as read by this core. -/
structure GitRepo where
  commits : List GitCommit
  refs : List (String × List Nat)
  head : Option HeadRef
deriving Repr, DecidableEq

/-- `repo.Reference(name, true)`: look a reference up by full name. -/
def lookupRef (refs : List (String × List Nat)) (name : String) : Option (List Nat) :=
  (refs.find? (fun p => decide (p.1 = name))).map (·.2)

/-- Resolver failures: the two error returns of `resolveRevision`. -/
inductive ResolveErr
  | ambiguousPrefix (rev : String)
  | notFound
deriving Repr, DecidableEq

/-- The resolver's `(plumbing.Hash, error)` return value. -/
inductive RevResult
  | ok (h : List Nat)
  | err (e : ResolveErr)
deriving Repr, DecidableEq

/-- The final strategy of `resolveRevision` (part_003): with a nostr pubkey
configured, scan the mappings in stored order and return `NewHash(GitHash)`
of the first whose `MGitHash` equals the revision or starts with it; with no
pubkey the strategy is skipped. -/
def resolveViaMappings (pubkey : String) (mappings : List NostrCommitMapping)
    (rev : String) : RevResult :=
  if pubkey ≠ "" then
    match mappings.find? (fun m => decide (m.mgitHash = rev) || strStartsWith m.mgitHash rev) with
    | some m => .ok (newHashBytes m.gitHash)
    | none => .err .notFound
  else .err .notFound

/-- `resolveRevision` from the strategy-ordered copy (part_003): HEAD, then
literal reference, then `refs/heads/`, then `refs/tags/`, then full 40-hex
hash of an existing commit, then unambiguous prefix over all commits (4 to 39
characters), then the mapping store. -/
def resolveRevision (repo : GitRepo) (pubkey : String)
    (mappings : List NostrCommitMapping) (rev : String) : RevResult :=
  match (if rev = "HEAD" then repo.head.map HeadRef.hash else none) with
  | some h => .ok h
  | none =>
  match lookupRef repo.refs rev with
  | some h => .ok h
  | none =>
  match lookupRef repo.refs ("refs/heads/" ++ rev) with
  | some h => .ok h
  | none =>
  match lookupRef repo.refs ("refs/tags/" ++ rev) with
  | some h => .ok h
  | none =>
  match (if rev.length = 40 ∧ isHash rev = true ∧
            repo.commits.any (fun c => decide (c.hash = newHashBytes rev)) = true
         then some (newHashBytes rev) else none) with
  | some h => .ok h
  | none =>
  if 4 ≤ rev.length ∧ rev.length < 40 then
    match repo.commits.filter (fun c => strStartsWith (hashToHex c.hash) rev) with
    | [c] => .ok c.hash
    | _ :: _ :: _ => .err (.ambiguousPrefix rev)
    | [] => resolveViaMappings pubkey mappings rev
  else resolveViaMappings pubkey mappings rev

/-- `resolveRevision` from the other copy (part_004): literal reference
first, then — before any branch or tag prefixing — `IsHash` short-circuits to
`NewHash(rev)` without consulting the object store, then `refs/heads/`,
`refs/tags/`, and `HEAD` last. -/
def resolveRevisionAlt (repo : GitRepo) (rev : String) : RevResult :=
  match lookupRef repo.refs rev with
  | some h => .ok h
  | none =>
  if isHash rev = true then .ok (newHashBytes rev)
  else
  match lookupRef repo.refs ("refs/heads/" ++ rev) with
  | some h => .ok h
  | none =>
  match lookupRef repo.refs ("refs/tags/" ++ rev) with
  | some h => .ok h
  | none =>
  if rev = "HEAD" then
    match repo.head.map HeadRef.hash with
    | some h => .ok h
    | none => .err .notFound
  else .err .notFound

/-- A branch name that is also a well-formed 40-hex commit hash. -/
def hexBranchName : String := "aaaaaaaaaaaaaaaaaaaaaaaaaaaaaaaaaaaaaaaa"

/-- The hash that branch points to. -/
def hexBranchTarget : List Nat := List.replicate 20 188

/-- A repository whose only reference is that branch. -/
def hexBranchRepo : GitRepo :=
  { commits := []
    refs := [("refs/heads/" ++ hexBranchName, hexBranchTarget)]
    head := none }

/-- Two commits sharing the prefix aaaa. -/
def prefixCommitA : GitCommit :=
  { wCommit0 with hash := 170 :: 170 :: 17 :: List.replicate 17 17 }

/-- The second commit sharing the prefix aaaa. -/
def prefixCommitB : GitCommit :=
  { wCommit0 with hash := 170 :: 170 :: 34 :: List.replicate 17 34 }

/-- A repository with exactly those two commits and no references. -/
def prefixRepo : GitRepo :=
  { commits := [prefixCommitA, prefixCommitB], refs := [], head := none }

/-- Mapping fixtures for the C9 witness: the second and third entries share
the two-character prefix ab. -/
def c9Mappings : List NostrCommitMapping :=
  [ ⟨"ffffffffffffffffffffffffffffffffffffffff",
     "ffffffffffffffffffffffffffffffffffffffff", "k"⟩,
    ⟨"1111111111111111111111111111111111111111",
     "ab11111111111111111111111111111111111111", "k"⟩,
    ⟨"2222222222222222222222222222222222222222",
     "ab22222222222222222222222222222222222222", "k"⟩ ]

/-! ## The MGit store and the graph reconstructor (part_000)

`MGitStorage`, `MCommitStruct` and `MGitSignature` are declared outside the
files present here; their fields are fixed by the call sites in
`reconstructMGitObjects` and the log/verify handlers, and their behaviour by
the spec's Commit Store contract (§4.2).  Directory creation, file reading
and the `[:7]` display slicing of the Go code are I/O and are not modelled;
the store is a record threaded through the phases. -/

/-- `MGitSignature` as used by the reconstruction call sites (name, email,
pubkey, timestamp). -/
structure MGitSignature where
  name : String
  email : String
  pubkey : String
  whenUnix : Int
deriving Repr, DecidableEq

/-- The object type tag; reconstruction always stores `MGitCommitObject`. -/
inductive MGitObjectType
  | commit
deriving Repr, DecidableEq

/-- `MCommitStruct`, the persisted identity-bound commit record (the spec's
ObjectRecord): identity and native hashes, message, author, committer,
identity-domain parent hashes (hex strings), tree hash (hex). -/
structure MCommitStruct where
  objType : MGitObjectType
  mgitHash : String
  gitHash : String
  message : String
  author : MGitSignature
  committer : MGitSignature
  parentHashes : List String
  treeHash : String
deriving Repr, DecidableEq

/-- The `.mgit` store: content-addressed objects keyed by identity hash,
branch references (by branch name), and the `HEAD` file content. -/
structure MGitStore where
  objects : List (String × MCommitStruct)
  refs : List (String × String)
  head : Option String
deriving Repr, DecidableEq

/-- The store of a freshly initialized `.mgit` directory. -/
def emptyMGitStore : MGitStore := ⟨[], [], none⟩

/-- `GetCommit`-style lookup by identity hash. -/
def lookupObj (s : MGitStore) (k : String) : Option MCommitStruct :=
  (s.objects.find? (fun p => decide (p.1 = k))).map (·.2)

/-- Modelled from the spec: Commit Store `put` (§4.2) — `MGitStorage.StoreCommit`
is not in the files present here.  The record is persisted under its
`mgitHash`; re-putting an identical record is idempotent, and overwriting an
existing key with a different record is a `CorruptionError`. -/
def MGitStore.storeCommit (s : MGitStore) (c : MCommitStruct) : Except String MGitStore :=
  match lookupObj s c.mgitHash with
  | some old => if old = c then .ok s else .error "corruption"
  | none => .ok { s with objects := s.objects ++ [(c.mgitHash, c)] }

/-- Modelled from the spec: Commit Store `updateRef` (§4.2) —
`MGitStorage.UpdateRef` is not in the files present here.  Writing the branch
reference file replaces its content. -/
def MGitStore.updateRef (s : MGitStore) (name target : String) : MGitStore :=
  { s with refs := s.refs.filter (fun p => !(decide (p.1 = name))) ++ [(name, target)] }

/-- `repo.CommitObject(plumbing.NewHash(g))`: find the commit whose hash is
the decoded form of the hex string `g`. -/
def findCommitByGitHash (repo : GitRepo) (g : String) : Option GitCommit :=
  repo.commits.find? (fun c => decide (c.hash = newHashBytes g))

/-- The record synthesized for one mapping entry by `reconstructMGitObjects`:
tree hash and message copied from the native commit, the author fields copied
from the native author and the committer fields also copied from the native
author, the mapping's pubkey on both signatures, and each native parent
resolved through the mapping list (first match), unmapped parents skipped. -/
def mkMGitCommit (mappings : List NostrCommitMapping) (m : NostrCommitMapping)
    (commit : GitCommit) : MCommitStruct :=
  { objType := .commit
    mgitHash := m.mgitHash
    gitHash := m.gitHash
    message := commit.message
    author := ⟨commit.author.name, commit.author.email, m.pubkey, commit.author.whenUnix⟩
    committer := ⟨commit.author.name, commit.author.email, m.pubkey, commit.author.whenUnix⟩
    parentHashes := commit.parentHashes.filterMap (fun p =>
      (mappings.find? (fun pm => decide (pm.gitHash = hashToHex p))).map (·.mgitHash))
    treeHash := hashToHex commit.treeHash }

/-- The warnings `reconstructMGitObjects` logs while continuing. -/
inductive ReconWarning
  | missingGitCommit (gitHash : String)
  | storeFailed (mgitHash : String)
  | branchUnmapped (branch : String) (gitHash : String)
deriving Repr, DecidableEq

/-- The errors that abort a reconstruction run. -/
inductive ReconErr
  | headError
  | unresolvedHead (gitHash : String)
deriving Repr, DecidableEq

/-- Outcome of a reconstruction run: the store as left on disk, the warnings
printed, and the error, if any, that aborted the run. -/
structure ReconResult where
  store : MGitStore
  warnings : List ReconWarning
  err : Option ReconErr
deriving Repr, DecidableEq

/-- Phase 1 of `reconstructMGitObjects`: for each mapping, load the native
commit (warn and continue when absent), synthesize the record, store it
(warn and continue when the store rejects it). -/
def reconCommits (repo : GitRepo) (all : List NostrCommitMapping) :
    MGitStore → List ReconWarning → List NostrCommitMapping →
    MGitStore × List ReconWarning
  | s, ws, [] => (s, ws)
  | s, ws, m :: rest =>
    match findCommitByGitHash repo m.gitHash with
    | none => reconCommits repo all s (ws ++ [.missingGitCommit m.gitHash]) rest
    | some commit =>
      match s.storeCommit (mkMGitCommit all m commit) with
      | .error _ => reconCommits repo all s (ws ++ [.storeFailed m.mgitHash]) rest
      | .ok s' => reconCommits repo all s' ws rest

/-- Phase 2 of `reconstructMGitObjects`: walk every native reference; for
branches, set the identity-domain branch reference when the tip has a
mapping, else warn (the loop scans for the first mapping match and warns when
the recorded mgit hash remains empty). -/
def reconBranches (all : List NostrCommitMapping) :
    MGitStore → List ReconWarning → List (String × List Nat) →
    MGitStore × List ReconWarning
  | s, ws, [] => (s, ws)
  | s, ws, (name, target) :: rest =>
    if strStartsWith name "refs/heads/" = true then
      let branchName := strDrop name 11
      let gitHash := hashToHex target
      match all.find? (fun m => decide (m.gitHash = gitHash)) with
      | some m =>
        reconBranches all (s.updateRef branchName m.mgitHash)
          (if m.mgitHash = "" then ws ++ [.branchUnmapped branchName gitHash] else ws) rest
      | none => reconBranches all s (ws ++ [.branchUnmapped branchName gitHash]) rest
    else reconBranches all s ws rest

/-- `reconstructMGitObjects` (part_000): materialize a record per mapping,
rewrite branch references, then resolve native `HEAD` — symbolic `HEAD`
becomes a symbolic identity `HEAD`; a detached `HEAD` requires its target to
be mapped, else the run fails with no identity `HEAD` written. -/
def reconstructMGitObjects (repo : GitRepo) (mappings : List NostrCommitMapping) :
    ReconResult :=
  let p1 := reconCommits repo mappings emptyMGitStore [] mappings
  let p2 := reconBranches mappings p1.1 p1.2 repo.refs
  match repo.head with
  | none => ⟨p2.1, p2.2, some .headError⟩
  | some (.branch name _) =>
      ⟨{ p2.1 with head := some ("ref: refs/heads/" ++ name) }, p2.2, none⟩
  | some (.detached target) =>
      match mappings.find? (fun m => decide (m.gitHash = hashToHex target)) with
      | some m => ⟨{ p2.1 with head := some m.mgitHash }, p2.2, none⟩
      | none => ⟨p2.1, p2.2, some (.unresolvedHead (hashToHex target))⟩

/-- The per-mapping object-table entry phase 1 produces. -/
def commitEntry (repo : GitRepo) (all : List NostrCommitMapping)
    (m : NostrCommitMapping) : Option (String × MCommitStruct) :=
  (findCommitByGitHash repo m.gitHash).map (fun c => (m.mgitHash, mkMGitCommit all m c))

/-- The per-mapping warning phase 1 emits (only for an unloadable native
commit, provided no store conflict arises). -/
def commitWarning (repo : GitRepo) (m : NostrCommitMapping) : Option ReconWarning :=
  if findCommitByGitHash repo m.gitHash = none
  then some (.missingGitCommit m.gitHash) else none

/-- The per-reference warning phase 2 emits: one for each branch whose tip
has no mapping (or a mapping with an empty identity hash). -/
def branchWarning (all : List NostrCommitMapping) (r : String × List Nat) :
    Option ReconWarning :=
  if strStartsWith r.1 "refs/heads/" = true then
    match all.find? (fun m => decide (m.gitHash = hashToHex r.2)) with
    | some m => if m.mgitHash = ""
        then some (.branchUnmapped (strDrop r.1 11) (hashToHex r.2)) else none
    | none => some (.branchUnmapped (strDrop r.1 11) (hashToHex r.2))
  else none

/-- Native hash (hex) of the unmapped root commit in the C6 scenario. -/
def g0hex : String := "aaaaaaaaaaaaaaaaaaaaaaaaaaaaaaaaaaaaaaaa"

/-- Native hash (hex) of the mapped child commit in the C6 scenario. -/
def g1hex : String := "bbbbbbbbbbbbbbbbbbbbbbbbbbbbbbbbbbbbbbbb"

/-- The root commit: present in the native history, missing from the table. -/
def c6c0 : GitCommit :=
  { hash := List.replicate 20 170
    treeHash := List.replicate 20 17
    parentHashes := []
    author := ⟨"A", "a@x", 0⟩
    committer := ⟨"A", "a@x", 0⟩
    message := "m0" }

/-- The child commit: mapped, with the unmapped root as its sole parent. -/
def c6c1 : GitCommit :=
  { hash := List.replicate 20 187
    treeHash := List.replicate 20 17
    parentHashes := [List.replicate 20 170]
    author := ⟨"A", "a@x", 1⟩
    committer := ⟨"A", "a@x", 1⟩
    message := "m1" }

/-- The sole mapping entry: only the child commit is mapped. -/
def c6m1 : NostrCommitMapping :=
  ⟨g1hex, "cccccccccccccccccccccccccccccccccccccccc", "k"⟩

/-- The C6 repository: both commits, one branch at the child, HEAD on it. -/
def c6repo : GitRepo :=
  { commits := [c6c0, c6c1]
    refs := [("refs/heads/main", List.replicate 20 187)]
    head := some (.branch "main" (List.replicate 20 187)) }

/-- The C6 repository with HEAD detached at the mapped child commit. -/
def c7repoM : GitRepo :=
  { c6repo with head := some (.detached (List.replicate 20 187)) }

/-- The C6 repository with HEAD detached at the unmapped root commit. -/
def c7repoU : GitRepo :=
  { c6repo with head := some (.detached (List.replicate 20 170)) }

/-! ## The verify-side hash recomputation and `HandleMGitVerify`

`HandleMGitVerify` (in the repository's README listing) recomputes each
commit's identity hash as `computeMGitHash(gitCommit, commit.ParentHashes,
commit.Author.Pubkey)` — a three-argument form whose definition is not in the
files present here (`mcommit.go` defines only the two-argument form). -/

/-- Modelled from the spec: the three-argument `computeMGitHash` variant the
verification path calls — absent from the files present here — which, per
§9, recomputes the hash "passing the stored identity-domain parent hashes"
in place of the native ones: the given (hex) parents are decoded and written
to the hasher where the native parents' bytes went. -/
def computeMGitHashWithParents (commit : GitCommit) (parentHashes : List String)
    (pubkey : String) : List Nat :=
  let h1 := commit.treeHash
  let h2 := parentHashes.foldl (fun acc p => acc ++ newHashBytes p) h1
  let authorStr := commit.author.name ++ " <" ++ commit.author.email ++ "> " ++
    toString commit.author.whenUnix ++ " " ++ pubkey
  let h3 := h2 ++ strBytes authorStr
  let committerStr := commit.committer.name ++ " <" ++ commit.committer.email ++ "> " ++
    toString commit.committer.whenUnix
  let h4 := h3 ++ strBytes committerStr
  let h5 := h4 ++ strBytes commit.message
  (sha1 h5).take 20

/-- The identity hash of the root commit under pubkey k. -/
def mgit0hex : String := "cc27b523356a76fc2b6817743ef30d0467e892ed"

/-- The identity hash of the child commit under pubkey k (computed, at
commit time, over the native parent hash). -/
def mgit1hex : String := "3a2a01f4aaa21ba01ff57a2423e95e0b6b810b9a"

/-- Mapping entry of the root commit. -/
def c1m0 : NostrCommitMapping := ⟨g0hex, mgit0hex, "k"⟩

/-- Mapping entry of the child commit. -/
def c1m1 : NostrCommitMapping := ⟨g1hex, mgit1hex, "k"⟩

/-- The target hash `HEAD` resolves to: through the branch reference for a
symbolic `ref: refs/heads/<branch>` content, directly otherwise. -/
def headTarget (s : MGitStore) : Option String :=
  s.head.bind (fun content =>
    if strStartsWith content "ref: refs/heads/" = true then
      (s.refs.find? (fun p => decide (p.1 = strDrop content 16))).map (·.2)
    else some content)

/-- Modelled from the spec: Commit Store `getHeadCommit` (§4.2) —
`MGitStorage.GetHeadCommit` is not in the files present here.  Symbolic
indirection is resolved before the record is fetched. -/
def MGitStore.getHeadCommit (s : MGitStore) : Option MCommitStruct :=
  (headTarget s).bind (fun h => lookupObj s h)

/-- The two conditions that set `valid = false` in `HandleMGitVerify`: an
unfindable native commit, or a recomputed hash differing from the stored
key. -/
inductive VerifyIssue
  | missingGitCommit (mgitHash gitHash : String)
  | hashMismatch (mgitHash expected : String)
deriving Repr, DecidableEq

/-- Outcome of a verify run: the store as left on disk, the issues found,
the graph-build load failures merely printed, and the exit status. -/
structure VerifyResult where
  store : MGitStore
  issues : List VerifyIssue
  loadErrors : List String
  exitFailure : Bool
deriving Repr, DecidableEq

/-- The breadth-first graph build of `HandleMGitVerify`: pop work items,
skip already-visited hashes, record load failures (without marking the hash
visited, as the source does), and accumulate loaded commits while enqueuing
their not-yet-visited parents.  The Go loop runs until the queue empties;
here explicit fuel bounds the iteration count, and `verifyFuel` below always
suffices because each iteration consumes one queue element and parents are
enqueued only on the at-most-one visit of each stored key. -/
def buildVerifyGraph (s : MGitStore) :
    Nat → List String → List String → List (String × MCommitStruct) → List String →
    List (String × MCommitStruct) × List String
  | 0, _, _, acc, errs => (acc, errs)
  | _ + 1, [], _, acc, errs => (acc, errs)
  | fuel + 1, cur :: rest, visited, acc, errs =>
    if cur ∈ visited then buildVerifyGraph s fuel rest visited acc errs
    else
      match lookupObj s cur with
      | none => buildVerifyGraph s fuel rest visited acc (errs ++ [cur])
      | some c =>
          buildVerifyGraph s fuel
            (rest ++ c.parentHashes.filter (fun p => decide (p ∉ cur :: visited)))
            (cur :: visited) (acc ++ [(cur, c)]) errs

/-- An iteration bound the verify walk never exhausts: one initial work item
plus one per parent slot of every stored record. -/
def verifyFuel (s : MGitStore) : Nat :=
  1 + (s.objects.map (fun p => p.2.parentHashes.length)).sum

/-- The check `HandleMGitVerify` performs on one reached commit: fetch the
native commit by the record's Git hash (report it missing if unfindable),
recompute the identity hash from the record's stored parent hashes and
pubkey, and report a mismatch when the recomputation differs from the hash
the record is stored under. -/
def verifyIssueFor (repo : GitRepo) (hc : String × MCommitStruct) : Option VerifyIssue :=
  match findCommitByGitHash repo hc.2.gitHash with
  | none => some (.missingGitCommit hc.1 hc.2.gitHash)
  | some gitCommit =>
    if hashToHex (computeMGitHashWithParents gitCommit hc.2.parentHashes
        hc.2.author.pubkey) ≠ hc.1
    then some (.hashMismatch hc.1
      (hashToHex (computeMGitHashWithParents gitCommit hc.2.parentHashes
        hc.2.author.pubkey)))
    else none

/-- `HandleMGitVerify`: load the HEAD commit (exiting with failure when that
is impossible), walk the stored graph breadth-first from it, check every
reached commit, and exit with failure exactly when some check failed.  (The
Go code iterates a map; the list order here is one determinization of that
iteration, the set of reached commits being the same.)  The store is only
ever read. -/
def HandleMGitVerify (store : MGitStore) (repo : GitRepo) : VerifyResult :=
  match store.getHeadCommit with
  | none => ⟨store, [], [], true⟩
  | some headCommit =>
    let g := buildVerifyGraph store (verifyFuel store) [headCommit.mgitHash] [] [] []
    let issues := g.1.filterMap (verifyIssueFor repo)
    ⟨store, issues, g.2, !issues.isEmpty⟩

set_option maxRecDepth 100000

/-- SHA-1 test vector: the empty message. -/
theorem sha1_empty :
    sha1 [] = [218, 57, 163, 238, 94, 107, 75, 13, 50, 85, 191, 239, 149, 96,
               24, 144, 175, 216, 7, 9] := by decide

/-- SHA-1 test vector: the three bytes of the string abc. -/
theorem sha1_abc :
    sha1 (strBytes "abc") = [169, 153, 62, 54, 71, 6, 129, 106, 186, 62, 37,
      113, 120, 80, 194, 108, 156, 208, 216, 157] := by decide

/-- Each level of `beBytes` appends one byte. -/
theorem beBytes_length (k : Nat) : ∀ n, (beBytes k n).length = k := by
  induction k with
  | zero => intro n; rfl
  | succ j ih => intro n; simp [beBytes, ih]

/-- SHA-1 digests are 20 bytes long. -/
theorem sha1_length (m : List Nat) : (sha1 m).length = 20 := by
  unfold sha1
  simp [beBytes_length]

/-- Round-trip of one nibble through the hex digit table. -/
theorem hexVal_hexDigitChar : ∀ n < 16, hexVal (hexDigitChar n) = n := by decide

/-- Decoding the hex rendering of a byte list recovers the bytes. -/
theorem hexPairs_hashToHex (l : List Nat) (hb : ∀ b ∈ l, b < 256) :
    hexPairs (hashToHex l).data = l := by
  induction l with
  | nil => rfl
  | cons b t ih =>
    have hb256 : b < 256 := hb b (by simp)
    have h1 : b / 16 < 16 := by omega
    have h2 : b % 16 < 16 := by omega
    have ht : ∀ x ∈ t, x < 256 := fun x hx => hb x (by simp [hx])
    simp only [hashToHex, List.flatMap_cons, List.cons_append, List.nil_append] at *
    simp [hexPairs, hexVal_hexDigitChar _ h1, hexVal_hexDigitChar _ h2, ih ht]
    omega

/-- `NewHash` inverts `Hash.String()` on genuine 20-byte hashes. -/
theorem newHashBytes_hashToHex (l : List Nat) (hlen : l.length = 20)
    (hb : ∀ b ∈ l, b < 256) : newHashBytes (hashToHex l) = l := by
  rw [newHashBytes, hexPairs_hashToHex l hb, ← hlen, List.take_left]

/-- Folding list append from an initial accumulator is appending the
concatenation. -/
theorem foldl_append_flatten (l : List (List Nat)) (init : List Nat) :
    l.foldl (fun acc p => acc ++ p) init = init ++ l.flatten := by
  induction l generalizing init with
  | nil => simp
  | cons h t ih => simp [ih, List.append_assoc]

/-- C2.  `computeMGitHash` is the SHA-1 digest of the concatenation, in fixed
order, of the tree hash bytes, each parent hash's bytes in list order, the
author line with the identity key, the committer line, and the message bytes —
a 20-byte digest.  (Determinism over repeated calls is immediate: the
embedding is a pure function of those inputs.) -/
theorem computeMGitHash_refines_spec (commit : GitCommit) (pubkey : String) :
    computeMGitHash commit pubkey =
      computeIdentityHashSpec commit.treeHash commit.parentHashes
        ⟨commit.author.name, commit.author.email, pubkey, commit.author.whenUnix⟩
        ⟨commit.committer.name, commit.committer.email, "", commit.committer.whenUnix⟩
        commit.message ∧
    (computeMGitHash commit pubkey).length = 20 := by
  constructor
  · simp only [computeMGitHash, computeIdentityHashSpec]
    rw [foldl_append_flatten]
    simp [List.append_assoc, List.take_of_length_le, sha1_length]
  · simp only [computeMGitHash]
    simp [sha1_length]

/-- C3.  A commit created with an empty identity key returns the native hash
unchanged: `MGitCommit` takes the explicit `Pubkey == ""` early-return branch
before any identity-hash computation (and `computeMGitHash` is never invoked;
no mapping is stored — `StoreMGitCommitMapping` is not called at all in
`MGitCommit`). -/
theorem mgitCommit_empty_pubkey_native (opts : MCommitOptions)
    (nativeHash : List Nat) (commit : GitCommit)
    (h : opts.author.pubkey = "") :
    MGitCommitResult opts nativeHash commit = nativeHash := by
  simp [MGitCommitResult, h]

/-- Witness for C3 at a concrete commit. -/
theorem mgitCommit_empty_pubkey_native_witness :
    MGitCommitResult ⟨⟨"Alice", "alice@example.com", "", 1700000000⟩, none⟩
      (List.replicate 20 7) wCommit0 = List.replicate 20 7 :=
  mgitCommit_empty_pubkey_native _ _ _ (by decide)

/-- C4, counterexample.  In the part_004 copy of `resolveRevision` the
`IsHash` strategy precedes the `refs/heads/` lookup: a branch named by 40 hex
characters resolves to the literal hash parsed from its name, not to the hash
the branch reference points to. -/
theorem resolveRevisionAlt_hash_beats_branch :
    resolveRevisionAlt hexBranchRepo hexBranchName = .ok (newHashBytes hexBranchName) ∧
    lookupRef hexBranchRepo.refs ("refs/heads/" ++ hexBranchName) = some hexBranchTarget ∧
    newHashBytes hexBranchName ≠ hexBranchTarget := by decide

/-- C4, amended.  In the strategy-ordered copy of `resolveRevision`
(part_003) reference matches do win: when the literal reference lookup fails
and `refs/heads/<rev>` resolves, a revision that is a well-formed 40-hex hash
still resolves to the branch target, no hash-based strategy being consulted. -/
theorem resolveRevision_branch_wins (repo : GitRepo) (pk : String)
    (ms : List NostrCommitMapping) (rev : String) (t : List Nat)
    (hhash : isHash rev = true)
    (h1 : lookupRef repo.refs rev = none)
    (h2 : lookupRef repo.refs ("refs/heads/" ++ rev) = some t) :
    resolveRevision repo pk ms rev = .ok t := by
  have hne : rev ≠ "HEAD" := by
    intro h
    subst h
    exact absurd hhash (by decide)
  simp [resolveRevision, hne, h1, h2]

/-- Witness for the amended C4 at a concrete repository. -/
theorem resolveRevision_branch_wins_witness :
    resolveRevision hexBranchRepo "" [] hexBranchName = .ok hexBranchTarget :=
  resolveRevision_branch_wins hexBranchRepo "" [] hexBranchName hexBranchTarget
    (by decide) (by decide) (by decide)

/-- `find?` returns the first element satisfying the predicate. -/
theorem find?_first {α : Type} (p : α → Bool) (pre post : List α) (m : α)
    (hpre : ∀ x ∈ pre, p x = false) (hm : p m = true) :
    (pre ++ m :: post).find? p = some m := by
  induction pre with
  | nil => simp [List.find?_cons, hm]
  | cons a t ih =>
    have ha := hpre a (by simp)
    simp only [List.cons_append, List.find?_cons, ha]
    exact ih (fun x hx => hpre x (by simp [hx]))

/-- C5.  Prefix resolution in `resolveRevision` (part_003): supposing a
revision of length 4 to 39 that no reference matches (the full-hash strategy
cannot apply below length 40), then with exactly one commit hash extending
the prefix it resolves to that hash; with several it fails with the ambiguous
error; with none the resolver falls through to the mapping strategy. -/
theorem resolveRevision_prefix_match (repo : GitRepo) (pk : String)
    (ms : List NostrCommitMapping) (rev : String)
    (hlen4 : 4 ≤ rev.length) (hlen40 : rev.length < 40)
    (hhead : rev = "HEAD" → repo.head = none)
    (h1 : lookupRef repo.refs rev = none)
    (h2 : lookupRef repo.refs ("refs/heads/" ++ rev) = none)
    (h3 : lookupRef repo.refs ("refs/tags/" ++ rev) = none) :
    (∀ c, repo.commits.filter (fun c => strStartsWith (hashToHex c.hash) rev) = [c] →
        resolveRevision repo pk ms rev = .ok c.hash) ∧
    (∀ c c' rest,
        repo.commits.filter (fun c => strStartsWith (hashToHex c.hash) rev) = c :: c' :: rest →
        resolveRevision repo pk ms rev = .err (.ambiguousPrefix rev)) ∧
    (repo.commits.filter (fun c => strStartsWith (hashToHex c.hash) rev) = [] →
        resolveRevision repo pk ms rev = resolveViaMappings pk ms rev) := by
  have hh : (if rev = "HEAD" then repo.head.map HeadRef.hash else none) = none := by
    by_cases h : rev = "HEAD"
    · simp [h, hhead h]
    · simp [h]
  have hfull : ¬(rev.length = 40 ∧ isHash rev = true ∧
      repo.commits.any (fun c => decide (c.hash = newHashBytes rev)) = true) := by
    rintro ⟨h40, -, -⟩
    omega
  have hpre : 4 ≤ rev.length ∧ rev.length < 40 := ⟨hlen4, hlen40⟩
  refine ⟨?_, ?_, ?_⟩
  · intro c hc
    simp only [resolveRevision, hh, h1, h2, h3]
    rw [if_neg hfull, if_pos hpre, hc]
  · intro c c' rest hc
    simp only [resolveRevision, hh, h1, h2, h3]
    rw [if_neg hfull, if_pos hpre, hc]
  · intro hc
    simp only [resolveRevision, hh, h1, h2, h3]
    rw [if_neg hfull, if_pos hpre, hc]

/-- Witness for C5: in `prefixRepo` the prefix aaaa matches both commits and
resolution fails as ambiguous, while the longer prefix aaaa11 matches only
the first commit and resolves to it. -/
theorem resolveRevision_prefix_match_witness :
    resolveRevision prefixRepo "" [] "aaaa" = .err (.ambiguousPrefix "aaaa") ∧
    resolveRevision prefixRepo "" [] "aaaa11" = .ok prefixCommitA.hash := by
  constructor
  · exact (resolveRevision_prefix_match prefixRepo "" [] "aaaa" (by decide) (by decide)
      (by intro h; exact absurd h (by decide)) (by decide) (by decide) (by decide)).2.1
      prefixCommitA prefixCommitB [] (by decide)
  · exact (resolveRevision_prefix_match prefixRepo "" [] "aaaa11" (by decide) (by decide)
      (by intro h; exact absurd h (by decide)) (by decide) (by decide) (by decide)).1
      prefixCommitA (by decide)

/-- C9.  The mapping-store strategy of `resolveRevision` (part_003) is a
first-match scan: when every earlier strategy falls through and a pubkey is
configured, the resolver returns `NewHash` of the Git hash of the first
mapping entry, in stored list order, whose MGit hash equals the revision or
merely starts with it — any prefix length is accepted and no ambiguity check
is made against later entries. -/
theorem resolveRevision_mapping_first (repo : GitRepo) (pk : String)
    (ms : List NostrCommitMapping) (rev : String)
    (pre post : List NostrCommitMapping) (m : NostrCommitMapping)
    (hpk : pk ≠ "")
    (hhead : rev = "HEAD" → repo.head = none)
    (h1 : lookupRef repo.refs rev = none)
    (h2 : lookupRef repo.refs ("refs/heads/" ++ rev) = none)
    (h3 : lookupRef repo.refs ("refs/tags/" ++ rev) = none)
    (hfull : ¬(rev.length = 40 ∧ isHash rev = true ∧
        repo.commits.any (fun c => decide (c.hash = newHashBytes rev)) = true))
    (hnopre : 4 ≤ rev.length ∧ rev.length < 40 →
        repo.commits.filter (fun c => strStartsWith (hashToHex c.hash) rev) = [])
    (hms : ms = pre ++ m :: post)
    (hpre : ∀ m' ∈ pre, (decide (m'.mgitHash = rev) || strStartsWith m'.mgitHash rev) = false)
    (hm : (decide (m.mgitHash = rev) || strStartsWith m.mgitHash rev) = true) :
    resolveRevision repo pk ms rev = .ok (newHashBytes m.gitHash) := by
  have hh : (if rev = "HEAD" then repo.head.map HeadRef.hash else none) = none := by
    by_cases h : rev = "HEAD"
    · simp [h, hhead h]
    · simp [h]
  have hvia : resolveViaMappings pk ms rev = .ok (newHashBytes m.gitHash) := by
    rw [resolveViaMappings, if_pos hpk, hms,
      find?_first (fun m => decide (m.mgitHash = rev) || strStartsWith m.mgitHash rev) pre post m hpre hm]
  by_cases hp : 4 ≤ rev.length ∧ rev.length < 40
  · simp only [resolveRevision, hh, h1, h2, h3]
    rw [if_neg hfull, if_pos hp, hnopre hp]
    exact hvia
  · simp only [resolveRevision, hh, h1, h2, h3]
    rw [if_neg hfull, if_neg hp]
    exact hvia

/-- Witness for C9: the two-character revision ab (below the four-character
minimum of the native prefix strategy) matches two mapping entries, and the
resolver returns the Git hash of the first without an ambiguity error. -/
theorem resolveRevision_mapping_first_witness :
    resolveRevision ⟨[], [], none⟩ "k" c9Mappings "ab" =
      .ok (newHashBytes "1111111111111111111111111111111111111111") :=
  resolveRevision_mapping_first ⟨[], [], none⟩ "k" c9Mappings "ab"
    [⟨"ffffffffffffffffffffffffffffffffffffffff",
      "ffffffffffffffffffffffffffffffffffffffff", "k"⟩]
    [⟨"2222222222222222222222222222222222222222",
      "ab22222222222222222222222222222222222222", "k"⟩]
    ⟨"1111111111111111111111111111111111111111",
     "ab11111111111111111111111111111111111111", "k"⟩
    (by decide) (by intro h; exact absurd h (by decide)) (by decide) (by decide) (by decide)
    (by decide) (by intro h; exact absurd h.1 (by decide)) (by decide)
    (by decide) (by decide)

/-- A successful `put` leaves `HEAD` and the branch references untouched. -/
theorem storeCommit_ok_frame {s : MGitStore} {c : MCommitStruct} {s' : MGitStore}
    (h : s.storeCommit c = .ok s') : s'.head = s.head ∧ s'.refs = s.refs := by
  unfold MGitStore.storeCommit at h
  split at h
  · split at h
    · cases h; exact ⟨rfl, rfl⟩
    · cases h
  · cases h; exact ⟨rfl, rfl⟩

/-- Phase 1 touches only the object table: `HEAD` and refs are preserved. -/
theorem reconCommits_frame (repo : GitRepo) (all : List NostrCommitMapping) :
    ∀ (pending : List NostrCommitMapping) (s : MGitStore) (ws : List ReconWarning),
    (reconCommits repo all s ws pending).1.head = s.head ∧
    (reconCommits repo all s ws pending).1.refs = s.refs := by
  intro pending
  induction pending with
  | nil => intro s ws; exact ⟨rfl, rfl⟩
  | cons m rest ih =>
    intro s ws
    simp only [reconCommits]
    split
    · exact ih s _
    · split
      · exact ih s _
      · next s' hsc =>
          have hfr := storeCommit_ok_frame hsc
          have hih := ih s' ws
          exact ⟨hih.1.trans hfr.1, hih.2.trans hfr.2⟩

/-- Phase 2 touches only the references: `HEAD` and objects are preserved. -/
theorem reconBranches_frame (all : List NostrCommitMapping) :
    ∀ (refs : List (String × List Nat)) (s : MGitStore) (ws : List ReconWarning),
    (reconBranches all s ws refs).1.head = s.head ∧
    (reconBranches all s ws refs).1.objects = s.objects := by
  intro refs
  induction refs with
  | nil => intro s ws; exact ⟨rfl, rfl⟩
  | cons r rest ih =>
    intro s ws
    obtain ⟨name, target⟩ := r
    simp only [reconBranches]
    by_cases hb : strStartsWith name "refs/heads/" = true
    · rw [if_pos hb]
      cases hm : all.find? (fun m => decide (m.gitHash = hashToHex target)) with
      | none => simp only [hm]; exact ih s _
      | some m => simp only [hm]; exact ih _ _
    · rw [if_neg hb]; exact ih s _

/-- Appending a fresh single entry does not change other keys' lookups. -/
theorem lookupObj_append_single (s : MGitStore) (k : String) (v : MCommitStruct)
    (k' : String) (hne : k' ≠ k) :
    lookupObj { s with objects := s.objects ++ [(k, v)] } k' = lookupObj s k' := by
  unfold lookupObj
  simp only [List.find?_append]
  have hone : List.find? (fun p => decide (p.1 = k')) [(k, v)] = none := by
    simp [List.find?_cons, Ne.symm hne]
  rw [hone]
  cases List.find? (fun p => decide (p.1 = k')) s.objects <;> rfl

/-- Characterization of phase 1 on a store whose keys are disjoint from the
pending mappings' (mutually distinct) identity hashes: the object table grows
by exactly one entry per mapping whose native commit loads, and exactly the
missing-commit warnings are appended. -/
theorem reconCommits_spec (repo : GitRepo) (all : List NostrCommitMapping) :
    ∀ (pending : List NostrCommitMapping) (s : MGitStore) (ws : List ReconWarning),
    (∀ m ∈ pending, lookupObj s m.mgitHash = none) →
    (pending.map (fun m => m.mgitHash)).Nodup →
    (reconCommits repo all s ws pending).1.objects =
      s.objects ++ pending.filterMap (commitEntry repo all) ∧
    (reconCommits repo all s ws pending).2 =
      ws ++ pending.filterMap (commitWarning repo) := by
  intro pending
  induction pending with
  | nil => intro s ws _ _; simp [reconCommits]
  | cons m rest ih =>
    intro s ws hdis hnd
    have hdism : lookupObj s m.mgitHash = none := hdis m (by simp)
    have hdisrest : ∀ m' ∈ rest, lookupObj s m'.mgitHash = none :=
      fun m' h => hdis m' (by simp [h])
    simp only [List.map_cons, List.nodup_cons] at hnd
    simp only [reconCommits]
    cases hf : findCommitByGitHash repo m.gitHash with
    | none =>
      simp only [hf]
      obtain ⟨ho, hw⟩ := ih s (ws ++ [.missingGitCommit m.gitHash]) hdisrest hnd.2
      constructor
      · rw [ho]; simp [commitEntry, hf]
      · rw [hw]; simp [commitWarning, hf]
    | some c =>
      have hsc : s.storeCommit (mkMGitCommit all m c) =
          .ok { s with objects := s.objects ++ [(m.mgitHash, mkMGitCommit all m c)] } := by
        unfold MGitStore.storeCommit
        have hmk : lookupObj s (mkMGitCommit all m c).mgitHash = none := hdism
        rw [hmk]
        rfl
      simp only [hf, hsc]
      have hdis' : ∀ m' ∈ rest,
          lookupObj { s with objects := s.objects ++ [(m.mgitHash, mkMGitCommit all m c)] }
            m'.mgitHash = none := by
        intro m' hm'
        have hne : m'.mgitHash ≠ m.mgitHash := by
          intro he
          exact hnd.1 (he ▸ List.mem_map_of_mem (fun x => x.mgitHash) hm')
        rw [lookupObj_append_single s m.mgitHash (mkMGitCommit all m c) m'.mgitHash hne]
        exact hdisrest m' hm'
      obtain ⟨ho, hw⟩ := ih _ ws hdis' hnd.2
      constructor
      · rw [ho]; simp [commitEntry, hf, List.append_assoc]
      · rw [hw]; simp [commitWarning, hf]

/-- In the entry list phase 1 builds from mappings with mutually distinct
identity hashes, looking a mapping's identity hash up finds that mapping's
synthesized record. -/
theorem find?_commitEntries (repo : GitRepo) (all : List NostrCommitMapping) :
    ∀ (l : List NostrCommitMapping) (m : NostrCommitMapping) (c : GitCommit),
    (l.map (fun m => m.mgitHash)).Nodup → m ∈ l →
    findCommitByGitHash repo m.gitHash = some c →
    (l.filterMap (commitEntry repo all)).find? (fun p => decide (p.1 = m.mgitHash)) =
      some (m.mgitHash, mkMGitCommit all m c) := by
  intro l
  induction l with
  | nil => intro m c _ hm; cases hm
  | cons a t ih =>
    intro m c hnd hm hc
    simp only [List.map_cons, List.nodup_cons] at hnd
    rcases List.mem_cons.mp hm with rfl | hmt
    · simp only [List.filterMap_cons, commitEntry, hc, Option.map_some]
      simp [List.find?_cons]
    · have hane : a.mgitHash ≠ m.mgitHash := by
        intro he
        exact hnd.1 (he ▸ List.mem_map_of_mem (fun x => x.mgitHash) hmt)
      have hrest := ih m c hnd.2 hmt hc
      simp only [List.filterMap_cons]
      cases ha : commitEntry repo all a with
      | none => exact hrest
      | some e =>
        have he1 : e.1 = a.mgitHash := by
          unfold commitEntry at ha
          cases hfc : findCommitByGitHash repo a.gitHash with
          | none => rw [hfc] at ha; cases ha
          | some c' => rw [hfc] at ha; cases ha; rfl
        rw [List.find?_cons]
        have : (decide (e.1 = m.mgitHash)) = false := by
          simp [he1, hane]
        rw [this]
        exact hrest

/-- Lookups depend only on the object table. -/
theorem lookupObj_congr {s t : MGitStore} (h : s.objects = t.objects) (k : String) :
    lookupObj s k = lookupObj t k := by
  unfold lookupObj
  rw [h]

/-- The final store of a reconstruction run has phase 1's object table,
whatever happens to `HEAD`. -/
theorem reconstruct_objects (repo : GitRepo) (mappings : List NostrCommitMapping) :
    (reconstructMGitObjects repo mappings).store.objects =
      (reconCommits repo mappings emptyMGitStore [] mappings).1.objects := by
  unfold reconstructMGitObjects
  have hb := (reconBranches_frame mappings repo.refs
    (reconCommits repo mappings emptyMGitStore [] mappings).1
    (reconCommits repo mappings emptyMGitStore [] mappings).2).2
  cases hh : repo.head with
  | none => simpa using hb
  | some hr =>
    cases hr with
    | branch name t => simpa using hb
    | detached target =>
      cases hfm : mappings.find? (fun m => decide (m.gitHash = hashToHex target)) with
      | none => simp only [hfm]; simpa using hb
      | some m => simp only [hfm]; simpa using hb

/-- After a reconstruction run over mappings with mutually distinct identity
hashes, every mapping whose native commit loads is materialized: looking its
identity hash up in the final store returns exactly the synthesized record. -/
theorem reconstruct_lookup (repo : GitRepo) (mappings : List NostrCommitMapping)
    (hnd : (mappings.map (fun m => m.mgitHash)).Nodup)
    (m : NostrCommitMapping) (hm : m ∈ mappings) (c : GitCommit)
    (hc : findCommitByGitHash repo m.gitHash = some c) :
    lookupObj (reconstructMGitObjects repo mappings).store m.mgitHash =
      some (mkMGitCommit mappings m c) := by
  have hspec := (reconCommits_spec repo mappings mappings emptyMGitStore []
    (fun _ _ => rfl) hnd).1
  unfold lookupObj
  rw [reconstruct_objects repo mappings, hspec]
  simp only [emptyMGitStore, List.nil_append]
  rw [find?_commitEntries repo mappings mappings m c hnd hm hc]
  rfl

/-- Characterization of phase 2's warnings: one per branch reference whose
tip's mapping lookup fails (or yields an empty identity hash). -/
theorem reconBranches_warnings (all : List NostrCommitMapping) :
    ∀ (refs : List (String × List Nat)) (s : MGitStore) (ws : List ReconWarning),
    (reconBranches all s ws refs).2 = ws ++ refs.filterMap (branchWarning all) := by
  intro refs
  induction refs with
  | nil => intro s ws; simp [reconBranches]
  | cons r rest ih =>
    intro s ws
    obtain ⟨name, target⟩ := r
    simp only [reconBranches]
    by_cases hb : strStartsWith name "refs/heads/" = true
    · rw [if_pos hb]
      cases hm : all.find? (fun m => decide (m.gitHash = hashToHex target)) with
      | none =>
        simp only [hm]
        rw [ih]
        simp [branchWarning, hb, hm, List.append_assoc]
      | some m =>
        simp only [hm]
        by_cases he : m.mgitHash = ""
        · rw [if_pos he, ih]
          simp [branchWarning, hb, hm, he, List.append_assoc]
        · rw [if_neg he, ih]
          simp [branchWarning, hb, hm, he]
    · rw [if_neg hb]
      rw [ih]
      simp [branchWarning, hb]

/-- C6, amended.  With a mapping table missing the entry for one (or more)
historical commits, and mutually distinct identity hashes, and a native HEAD
on a branch: reconstruction completes without aborting; a record is
materialized for every mapping whose native commit loads — its parent list
resolving each native parent that has a mapping and silently skipping each
that has none; and the warnings are exactly one per mapping whose native
commit is missing plus one per branch whose tip is unmapped.  In particular a
commit absent from the table gets no warning of its own — nothing is reported
for a silently skipped parent — unless a branch points at it. -/
theorem reconstruct_partial_graph (repo : GitRepo) (mappings : List NostrCommitMapping)
    (hnd : (mappings.map (fun m => m.mgitHash)).Nodup)
    (name : String) (t : List Nat) (hhead : repo.head = some (.branch name t)) :
    (reconstructMGitObjects repo mappings).err = none ∧
    (∀ m ∈ mappings, ∀ c, findCommitByGitHash repo m.gitHash = some c →
        lookupObj (reconstructMGitObjects repo mappings).store m.mgitHash =
          some (mkMGitCommit mappings m c)) ∧
    (reconstructMGitObjects repo mappings).warnings =
      mappings.filterMap (commitWarning repo) ++
        repo.refs.filterMap (branchWarning mappings) := by
  refine ⟨?_, ?_, ?_⟩
  · unfold reconstructMGitObjects
    rw [hhead]
  · intro m hm c hc
    exact reconstruct_lookup repo mappings hnd m hm c hc
  · have hw1 := (reconCommits_spec repo mappings mappings emptyMGitStore []
      (fun _ _ => rfl) hnd).2
    have hw2 := reconBranches_warnings mappings repo.refs
      (reconCommits repo mappings emptyMGitStore [] mappings).1
      (reconCommits repo mappings emptyMGitStore [] mappings).2
    unfold reconstructMGitObjects
    rw [hhead]
    simp only
    rw [hw2, hw1]
    simp

/-- C6, counterexample.  Reconstructing `c6repo` from a table missing exactly
one historical commit completes, but emits NO warning at all — not "exactly
one warning for the unresolved commit" — and the child's unmapped parent is
skipped silently (its stored parent list is empty although the native commit
has one parent), not "skipped while reported". -/
theorem recon_missing_mapping_silent :
    (reconstructMGitObjects c6repo [c6m1]).err = none ∧
    (reconstructMGitObjects c6repo [c6m1]).warnings = [] ∧
    (lookupObj (reconstructMGitObjects c6repo [c6m1]).store c6m1.mgitHash).map
      (fun r => r.parentHashes) = some [] ∧
    (findCommitByGitHash c6repo c6m1.gitHash).map
      (fun c => c.parentHashes.length) = some 1 := by decide

/-- Witness for the amended C6: the amended theorem applied to the concrete
C6 scenario — no abort, the child materialized with its synthesized record,
and the warning list exactly the (here empty) characterization. -/
theorem reconstruct_partial_graph_witness :
    (reconstructMGitObjects c6repo [c6m1]).err = none ∧
    lookupObj (reconstructMGitObjects c6repo [c6m1]).store c6m1.mgitHash =
      some (mkMGitCommit [c6m1] c6m1 c6c1) :=
  ⟨(reconstruct_partial_graph c6repo [c6m1] (by decide) "main" (List.replicate 20 187) rfl).1,
   (reconstruct_partial_graph c6repo [c6m1] (by decide) "main" (List.replicate 20 187) rfl).2.1
     c6m1 (by decide) c6c1 (by decide)⟩

/-- C7.  HEAD reconstruction: a symbolic native HEAD yields a symbolic
identity HEAD naming the same branch and no error; a detached native HEAD
whose target is mapped yields a direct identity HEAD holding the mapped
identity hash; a detached native HEAD with no mapping makes the run fail and
leaves no identity HEAD written. -/
theorem reconstruct_head_cases (repo : GitRepo) (mappings : List NostrCommitMapping) :
    (∀ name t, repo.head = some (.branch name t) →
      (reconstructMGitObjects repo mappings).err = none ∧
      (reconstructMGitObjects repo mappings).store.head =
        some ("ref: refs/heads/" ++ name)) ∧
    (∀ target m, repo.head = some (.detached target) →
      mappings.find? (fun mm => decide (mm.gitHash = hashToHex target)) = some m →
      (reconstructMGitObjects repo mappings).err = none ∧
      (reconstructMGitObjects repo mappings).store.head = some m.mgitHash) ∧
    (∀ target, repo.head = some (.detached target) →
      mappings.find? (fun mm => decide (mm.gitHash = hashToHex target)) = none →
      (reconstructMGitObjects repo mappings).err =
        some (.unresolvedHead (hashToHex target)) ∧
      (reconstructMGitObjects repo mappings).store.head = none) := by
  have hh0 : (reconBranches mappings
      (reconCommits repo mappings emptyMGitStore [] mappings).1
      (reconCommits repo mappings emptyMGitStore [] mappings).2 repo.refs).1.head = none := by
    rw [(reconBranches_frame mappings repo.refs _ _).1,
        (reconCommits_frame repo mappings mappings emptyMGitStore []).1]
    rfl
  refine ⟨?_, ?_, ?_⟩
  · intro name t hhead
    unfold reconstructMGitObjects
    rw [hhead]
    exact ⟨rfl, rfl⟩
  · intro target m hhead hfm
    unfold reconstructMGitObjects
    rw [hhead]
    simp [hfm]
  · intro target hhead hfm
    unfold reconstructMGitObjects
    rw [hhead]
    simp only [hfm]
    exact ⟨trivial, hh0⟩

/-- Witness for C7 at the three concrete HEAD shapes. -/
theorem reconstruct_head_cases_witness :
    (reconstructMGitObjects c6repo [c6m1]).store.head =
      some ("ref: refs/heads/" ++ "main") ∧
    (reconstructMGitObjects c7repoM [c6m1]).store.head = some c6m1.mgitHash ∧
    (reconstructMGitObjects c7repoU [c6m1]).err =
      some (.unresolvedHead (hashToHex (List.replicate 20 170))) :=
  ⟨((reconstruct_head_cases c6repo [c6m1]).1 "main" (List.replicate 20 187) rfl).2,
   ((reconstruct_head_cases c7repoM [c6m1]).2.1 (List.replicate 20 187) c6m1 rfl
      (by decide)).2,
   ((reconstruct_head_cases c7repoU [c6m1]).2.2 (List.replicate 20 170) rfl
      (by decide)).1⟩

/-- C10.  The record reconstruction materializes for a mapping discards the
native committer: the stored committer's name, email and timestamp are copied
from the native commit's author, and the mapping's identity key is assigned
to both the author and the committer signatures. -/
theorem reconstruct_committer_from_author (repo : GitRepo)
    (mappings : List NostrCommitMapping)
    (hnd : (mappings.map (fun m => m.mgitHash)).Nodup)
    (m : NostrCommitMapping) (hm : m ∈ mappings) (c : GitCommit)
    (hc : findCommitByGitHash repo m.gitHash = some c) (rec : MCommitStruct)
    (hrec : lookupObj (reconstructMGitObjects repo mappings).store m.mgitHash =
      some rec) :
    rec.committer.name = c.author.name ∧
    rec.committer.email = c.author.email ∧
    rec.committer.whenUnix = c.author.whenUnix ∧
    rec.committer.pubkey = m.pubkey ∧
    rec.author.pubkey = m.pubkey := by
  rw [reconstruct_lookup repo mappings hnd m hm c hc] at hrec
  cases hrec
  exact ⟨rfl, rfl, rfl, rfl, rfl⟩

/-- Witness for C10: the record reconstructed for the mapped child commit —
whose native committer timestamp differs from nothing here but whose
committer is nonetheless rebuilt from the author — carries the author's
fields and the mapping's pubkey on both signatures. -/
theorem reconstruct_committer_from_author_witness :
    (mkMGitCommit [c6m1] c6m1 c6c1).committer.name = c6c1.author.name ∧
    (mkMGitCommit [c6m1] c6m1 c6c1).committer.email = c6c1.author.email ∧
    (mkMGitCommit [c6m1] c6m1 c6c1).committer.whenUnix = c6c1.author.whenUnix ∧
    (mkMGitCommit [c6m1] c6m1 c6c1).committer.pubkey = c6m1.pubkey ∧
    (mkMGitCommit [c6m1] c6m1 c6c1).author.pubkey = c6m1.pubkey :=
  reconstruct_committer_from_author c6repo [c6m1] (by decide) c6m1 (by decide)
    c6c1 (by decide) (mkMGitCommit [c6m1] c6m1 c6c1) (by decide)

/-- C1, counterexample.  The round-trip law fails on the code: the stored
record of the child commit carries identity-domain parent hashes, while its
`identityHash` was computed over the native parents; recomputing the hash
from the stored fields (as the verify path does) gives a different digest.
Concretely: the reconstructed record for the child is stored with parent list
`[mgit0hex]`, and the verify-path recomputation over that stored parent is
not `mgit1hex` — so verify flags a well-formed commit-time store. -/
theorem identity_hash_roundtrip_fails :
    hashToHex (computeMGitHash c6c0 "k") = mgit0hex ∧
    hashToHex (computeMGitHash c6c1 "k") = mgit1hex ∧
    (lookupObj (reconstructMGitObjects c6repo [c1m0, c1m1]).store mgit1hex).map
      (fun r => r.parentHashes) = some [mgit0hex] ∧
    hashToHex (computeMGitHashWithParents c6c1 [mgit0hex] "k") ≠ mgit1hex ∧
    (HandleMGitVerify (reconstructMGitObjects c6repo [c1m0, c1m1]).store
      c6repo).exitFailure = true := by
  refine ⟨by decide, by decide, by decide, by decide, by decide⟩

/-- Decoding a mapped hex rendering inside a fold recovers the raw parents. -/
theorem foldl_newHashBytes_map (l : List (List Nat))
    (hlen : ∀ p ∈ l, p.length = 20)
    (hb : ∀ p ∈ l, ∀ b ∈ p, b < 256) (init : List Nat) :
    (l.map hashToHex).foldl (fun acc p => acc ++ newHashBytes p) init =
      l.foldl (fun acc p => acc ++ p) init := by
  induction l generalizing init with
  | nil => rfl
  | cons p t ih =>
    simp only [List.map_cons, List.foldl_cons]
    rw [newHashBytes_hashToHex p (hlen p (by simp)) (hb p (by simp))]
    exact ih (fun q hq => hlen q (by simp [hq])) (fun q hq => hb q (by simp [hq])) _

/-- C1, amended.  The hash function round-trips exactly when the parents fed
back in are the native-domain ones: recomputing the verify-path hash with the
hex renderings of the commit's native parent hashes reproduces the
commit-time `computeMGitHash` (in particular the two agree on parentless
commits); the stored identity-domain parents, being different hashes, do not
reproduce it in general, as the counterexample shows. -/
theorem verify_hash_native_parents_roundtrip (commit : GitCommit) (pubkey : String)
    (hlen : ∀ p ∈ commit.parentHashes, p.length = 20)
    (hbytes : ∀ p ∈ commit.parentHashes, ∀ b ∈ p, b < 256) :
    computeMGitHashWithParents commit (commit.parentHashes.map hashToHex) pubkey =
      computeMGitHash commit pubkey := by
  simp only [computeMGitHashWithParents, computeMGitHash, List.nil_append]
  rw [foldl_newHashBytes_map commit.parentHashes hlen hbytes]

/-- Witness for the amended C1 at the concrete child commit. -/
theorem verify_hash_native_parents_roundtrip_witness :
    computeMGitHashWithParents c6c1 (c6c1.parentHashes.map hashToHex) "k" =
      computeMGitHash c6c1 "k" :=
  verify_hash_native_parents_roundtrip c6c1 "k" (by decide) (by decide)

/-- C8.  Verify never mutates the store: the store after a run is the store
before it, whatever the outcome; every reached commit whose native commit is
missing or whose recomputed hash disagrees with its stored hash contributes
its report to the output; and the run exits with failure precisely when at
least one reached commit has such an issue. -/
theorem verify_frame_and_reports (store : MGitStore) (repo : GitRepo)
    (hc : MCommitStruct) (hhead : store.getHeadCommit = some hc) :
    (HandleMGitVerify store repo).store = store ∧
    (∀ e ∈ (buildVerifyGraph store (verifyFuel store) [hc.mgitHash] [] [] []).1,
       ∀ i, verifyIssueFor repo e = some i →
         i ∈ (HandleMGitVerify store repo).issues) ∧
    ((HandleMGitVerify store repo).exitFailure = true ↔
       ∃ e ∈ (buildVerifyGraph store (verifyFuel store) [hc.mgitHash] [] [] []).1,
         verifyIssueFor repo e ≠ none) := by
  refine ⟨?_, ?_, ?_⟩
  · unfold HandleMGitVerify
    rw [hhead]
  · intro e he i hi
    unfold HandleMGitVerify
    rw [hhead]
    simp only
    exact List.mem_filterMap.mpr ⟨e, he, hi⟩
  · unfold HandleMGitVerify
    rw [hhead]
    simp only [Bool.not_eq_true']
    constructor
    · intro h
      have hne : (buildVerifyGraph store (verifyFuel store)
          [hc.mgitHash] [] [] []).1.filterMap (verifyIssueFor repo) ≠ [] := by
        intro hq
        rw [hq] at h
        cases h
      obtain ⟨i, hi⟩ := List.exists_mem_of_ne_nil _ hne
      obtain ⟨e, he, hei⟩ := List.mem_filterMap.mp hi
      refine ⟨e, he, ?_⟩
      rw [hei]
      intro hcon
      cases hcon
    · rintro ⟨e, he, hne⟩
      cases hi : verifyIssueFor repo e with
      | none => exact absurd hi hne
      | some i =>
        have hmem : i ∈ (buildVerifyGraph store (verifyFuel store)
            [hc.mgitHash] [] [] []).1.filterMap (verifyIssueFor repo) :=
          List.mem_filterMap.mpr ⟨e, he, hi⟩
        cases hfm : (buildVerifyGraph store (verifyFuel store)
            [hc.mgitHash] [] [] []).1.filterMap (verifyIssueFor repo) with
        | nil => rw [hfm] at hmem; cases hmem
        | cons a t => rfl

/-- Witness for C8: verify leaves the store reconstructed in the C1 scenario
untouched. -/
theorem verify_frame_and_reports_witness :
    (HandleMGitVerify (reconstructMGitObjects c6repo [c1m0, c1m1]).store
      c6repo).store = (reconstructMGitObjects c6repo [c1m0, c1m1]).store :=
  (verify_frame_and_reports (reconstructMGitObjects c6repo [c1m0, c1m1]).store
    c6repo (mkMGitCommit [c1m0, c1m1] c1m1 c6c1) (by decide)).1
